import Mathlib

/-!
Verification of the real-time collaborative canvas synchronization engine of
the canvas-notes-app repository, against its natural-language specification.

The JavaScript sources are shallowly embedded: JS `Map` objects become
insertion-ordered association lists (`List (String × α)`) with the exact
`set`/`delete`/`get`/`has`/`values` semantics of a JS `Map`; `x || 0`
defaulting becomes `Option Nat` with `.getD 0`; timers and `Date.now()`
become explicit `now : Nat` arguments; React refs become explicit state
records threaded through the functions.
-/

/-! ## JS Map semantics over insertion-ordered association lists -/

/-- JS `Map.prototype.set`: if the key is present, replace its value in
place (keeping its position); otherwise append the new pair at the end. -/
def jsMapSet (m : List (String × α)) (k : String) (v : α) : List (String × α) :=
  if m.any (fun p => p.1 == k) then
    m.map (fun p => if p.1 == k then (k, v) else p)
  else
    m ++ [(k, v)]

/-- JS `Map.prototype.delete`: remove the pair with the given key. -/
def jsMapDelete (m : List (String × α)) (k : String) : List (String × α) :=
  m.filter (fun p => !(p.1 == k))

/-- JS `Map.prototype.get`. -/
def jsMapGet (m : List (String × α)) (k : String) : Option α :=
  (m.find? (fun p => p.1 == k)).map (fun p => p.2)

/-- JS `Map.prototype.has`. -/
def jsMapHas (m : List (String × α)) (k : String) : Bool :=
  m.any (fun p => p.1 == k)

/-- JS `Map.prototype.values` (insertion order). -/
def jsMapValues (m : List (String × α)) : List α :=
  m.map (fun p => p.2)

/-! ## Data model (§3 of the spec; element shapes from the hooks) -/

/-- A canvas element / box snapshot.  `version` and `lastModified` are
optional because the sources guard them with `|| 0` defaulting; all other
element properties that the synchronization code never inspects
(geometry, style, …) are collapsed into the opaque `payload` field. -/
structure Box where
  id : String
  version : Option Nat := none
  modifiedBy : String := ""
  lastModified : Option Nat := none
  isDeleted : Bool := false
  payload : Nat := 0
deriving DecidableEq, Repr

/-- Change type of a remote sync event (part_019 `applyRemoteChanges`). -/
inductive RChangeType
  | create
  | update
  | delete
deriving DecidableEq, Repr

/-! ## Conflict resolution: resolveBoxConflicts (src/unnamed/part_019, lines 449-498) -/

/-- A batch of remote box changes, as passed to `resolveBoxConflicts`. -/
structure BoxChanges where
  created : List Box
  updated : List Box
  deleted : List String
deriving DecidableEq, Repr

/-- One conflict entry pushed by `resolveBoxConflicts`. -/
structure Conflict where
  ctype : String
  boxId : String
  localVersion : Nat
  incomingVersion : Nat
  resolution : String
deriving DecidableEq, Repr

/-- One resolution entry pushed by `resolveBoxConflicts`. -/
structure Resolution where
  boxId : String
  action : String
  timestamp : Nat
deriving DecidableEq, Repr

/-- Result shape of `resolveBoxConflicts`. -/
structure ResolvedChanges where
  created : List Box
  updated : List Box
  deleted : List String
  hasConflicts : Bool
  conflicts : List Conflict
  resolutions : List Resolution
deriving DecidableEq, Repr

/-- The in-order traversal of `changes.updated` performed by the `filter`
callback of `resolveBoxConflicts`: for each box, `localVersion` is
`boxVersions.get(box.id) || 0` and `incomingVersion` is `box.version || 0`;
a strictly smaller incoming version is dropped and records a
version_conflict entry; an equal incoming version from a different author
is kept and records a simultaneous_edit entry plus a merged_properties
resolution stamped with the current time; everything else is kept.
Returns (kept updates, conflicts, resolutions) in traversal order. -/
def resolveUpdatesGo (boxVersions : List (String × Nat)) (userId : String) (now : Nat) :
    List Box → List Box × List Conflict × List Resolution
  | [] => ([], [], [])
  | box :: rest =>
    let localVersion := (jsMapGet boxVersions box.id).getD 0
    let incomingVersion := box.version.getD 0
    let r := resolveUpdatesGo boxVersions userId now rest
    if incomingVersion < localVersion then
      (r.1, ⟨"version_conflict", box.id, localVersion, incomingVersion, "keep_local"⟩ :: r.2.1,
        r.2.2)
    else if incomingVersion = localVersion ∧ box.modifiedBy ≠ userId then
      (box :: r.1,
        ⟨"simultaneous_edit", box.id, localVersion, incomingVersion, "merge_properties"⟩ :: r.2.1,
        ⟨box.id, "merged_properties", now⟩ :: r.2.2)
    else
      (box :: r.1, r.2.1, r.2.2)

/-- `resolveBoxConflicts` (part_019): filters `changes.updated` against the
`boxVersions` map, passing `created` and `deleted` through untouched. -/
def resolveBoxConflicts (boxVersions : List (String × Nat)) (userId : String) (now : Nat)
    (changes : BoxChanges) : ResolvedChanges :=
  let r := resolveUpdatesGo boxVersions userId now changes.updated
  { created := changes.created
    updated := r.1
    deleted := changes.deleted
    hasConflicts := decide (0 < r.2.1.length)
    conflicts := r.2.1
    resolutions := r.2.2 }

/-- The per-box conflict entry produced by `resolveBoxConflicts`, if any. -/
def conflictEntryOf (boxVersions : List (String × Nat)) (userId : String) (box : Box) :
    Option Conflict :=
  let localVersion := (jsMapGet boxVersions box.id).getD 0
  let incomingVersion := box.version.getD 0
  if incomingVersion < localVersion then
    some ⟨"version_conflict", box.id, localVersion, incomingVersion, "keep_local"⟩
  else if incomingVersion = localVersion ∧ box.modifiedBy ≠ userId then
    some ⟨"simultaneous_edit", box.id, localVersion, incomingVersion, "merge_properties"⟩
  else
    none

/-- The per-box resolution entry produced by `resolveBoxConflicts`, if any. -/
def resolutionEntryOf (boxVersions : List (String × Nat)) (userId : String) (now : Nat)
    (box : Box) : Option Resolution :=
  let localVersion := (jsMapGet boxVersions box.id).getD 0
  let incomingVersion := box.version.getD 0
  if incomingVersion < localVersion then none
  else if incomingVersion = localVersion ∧ box.modifiedBy ≠ userId then
    some ⟨box.id, "merged_properties", now⟩
  else
    none

/-- A box survives the `resolveBoxConflicts` filter iff its incoming
version is not strictly below the receiver-local version. -/
def keepsUpdate (boxVersions : List (String × Nat)) (box : Box) : Bool :=
  decide ((jsMapGet boxVersions box.id).getD 0 ≤ box.version.getD 0)

theorem resolveUpdatesGo_eq (boxVersions : List (String × Nat)) (userId : String) (now : Nat)
    (l : List Box) :
    resolveUpdatesGo boxVersions userId now l =
      (l.filter (keepsUpdate boxVersions),
       l.filterMap (conflictEntryOf boxVersions userId),
       l.filterMap (resolutionEntryOf boxVersions userId now)) := by
  induction l with
  | nil => rfl
  | cons box rest ih =>
    simp only [resolveUpdatesGo, ih, List.filter_cons, List.filterMap_cons]
    by_cases h1 : box.version.getD 0 < (jsMapGet boxVersions box.id).getD 0
    · simp [h1, keepsUpdate, conflictEntryOf, resolutionEntryOf, Nat.not_le.mpr h1]
    · by_cases h2 : box.version.getD 0 = (jsMapGet boxVersions box.id).getD 0 ∧
        box.modifiedBy ≠ userId
      · simp [h1, h2, keepsUpdate, conflictEntryOf, resolutionEntryOf, Nat.not_lt.mp h1]
      · simp [h1, h2, keepsUpdate, conflictEntryOf, resolutionEntryOf, Nat.not_lt.mp h1]

/-- C1: Conflict resolution three-case policy of `resolveBoxConflicts`: for
every update batch and every updated box with incoming version
`box.version || 0` and receiver-local version `boxVersions.get(box.id) || 0`:
if the incoming version is strictly smaller, the update is dropped from the
resolved batch and a version_conflict/keep_local entry is recorded; if the
versions are equal and the box author differs from the local user, the
incoming snapshot is kept in the resolved batch (no field-level merge) and a
simultaneous_edit entry is recorded; if the incoming version is strictly
greater, the incoming snapshot is kept unconditionally. -/
theorem resolveBoxConflicts_three_case_policy (boxVersions : List (String × Nat))
    (userId : String) (now : Nat) (changes : BoxChanges) (box : Box)
    (hmem : box ∈ changes.updated) :
    (box.version.getD 0 < (jsMapGet boxVersions box.id).getD 0 →
      box ∉ (resolveBoxConflicts boxVersions userId now changes).updated ∧
      (⟨"version_conflict", box.id, (jsMapGet boxVersions box.id).getD 0,
        box.version.getD 0, "keep_local"⟩ : Conflict) ∈
        (resolveBoxConflicts boxVersions userId now changes).conflicts) ∧
    (box.version.getD 0 = (jsMapGet boxVersions box.id).getD 0 → box.modifiedBy ≠ userId →
      box ∈ (resolveBoxConflicts boxVersions userId now changes).updated ∧
      (⟨"simultaneous_edit", box.id, (jsMapGet boxVersions box.id).getD 0,
        box.version.getD 0, "merge_properties"⟩ : Conflict) ∈
        (resolveBoxConflicts boxVersions userId now changes).conflicts) ∧
    ((jsMapGet boxVersions box.id).getD 0 < box.version.getD 0 →
      box ∈ (resolveBoxConflicts boxVersions userId now changes).updated) := by
  simp only [resolveBoxConflicts, resolveUpdatesGo_eq]
  refine ⟨fun hlt => ⟨?_, ?_⟩, fun heq hne => ⟨?_, ?_⟩, fun hgt => ?_⟩
  · intro hin
    rw [List.mem_filter] at hin
    have := hin.2
    simp [keepsUpdate, Nat.not_le.mpr hlt] at this
  · exact List.mem_filterMap.mpr ⟨box, hmem, by simp [conflictEntryOf, hlt]⟩
  · exact List.mem_filter.mpr ⟨hmem, by simp [keepsUpdate, Nat.le_of_eq heq.symm]⟩
  · refine List.mem_filterMap.mpr ⟨box, hmem, ?_⟩
    simp [conflictEntryOf, heq, hne, Nat.lt_irrefl]
  · exact List.mem_filter.mpr ⟨hmem, by simp [keepsUpdate, Nat.le_of_lt hgt]⟩

def bvDemoC1 : List (String × Nat) := [("e", 5)]

def staleBoxC1 : Box := { id := "e", version := some 3, modifiedBy := "w" }

def tieBoxC1 : Box := { id := "e", version := some 5, modifiedBy := "w" }

def newerBoxC1 : Box := { id := "e", version := some 7, modifiedBy := "w" }

def changesDemoC1 : BoxChanges := ⟨[], [staleBoxC1, tieBoxC1, newerBoxC1], []⟩

/-- C1 witness: the three-case policy instantiated on a concrete batch
holding a stale, a tied and a newer update against local version 5. -/
theorem resolveBoxConflicts_three_case_policy_witness :
    staleBoxC1 ∈ changesDemoC1.updated ∧
    ((staleBoxC1.version.getD 0 < (jsMapGet bvDemoC1 staleBoxC1.id).getD 0 →
      staleBoxC1 ∉ (resolveBoxConflicts bvDemoC1 "u" 0 changesDemoC1).updated ∧
      (⟨"version_conflict", staleBoxC1.id, (jsMapGet bvDemoC1 staleBoxC1.id).getD 0,
        staleBoxC1.version.getD 0, "keep_local"⟩ : Conflict) ∈
        (resolveBoxConflicts bvDemoC1 "u" 0 changesDemoC1).conflicts) ∧
    (staleBoxC1.version.getD 0 = (jsMapGet bvDemoC1 staleBoxC1.id).getD 0 →
      staleBoxC1.modifiedBy ≠ "u" →
      staleBoxC1 ∈ (resolveBoxConflicts bvDemoC1 "u" 0 changesDemoC1).updated ∧
      (⟨"simultaneous_edit", staleBoxC1.id, (jsMapGet bvDemoC1 staleBoxC1.id).getD 0,
        staleBoxC1.version.getD 0, "merge_properties"⟩ : Conflict) ∈
        (resolveBoxConflicts bvDemoC1 "u" 0 changesDemoC1).conflicts) ∧
    ((jsMapGet bvDemoC1 staleBoxC1.id).getD 0 < staleBoxC1.version.getD 0 →
      staleBoxC1 ∈ (resolveBoxConflicts bvDemoC1 "u" 0 changesDemoC1).updated)) :=
  ⟨by decide, resolveBoxConflicts_three_case_policy bvDemoC1 "u" 0 changesDemoC1 staleBoxC1
    (by decide)⟩

/-! ## Sync Queue (C3, C4, C5): src/src/hooks/useCanvasSync.js -/

/-- Local change type used by `queueChange` in useCanvasSync.js. -/
inductive SChangeType
  | update
  | remove
deriving DecidableEq, Repr

/-- The stripped element stored for a remove change: `{ id: element.id }`. -/
def strippedBox (id : String) : Box := { id := id }

/-- `generateChangeId` (useCanvasSync.js line 22-24):
the dedup key is the string `id-(version || 0)-Date.now()`. -/
def generateChangeId (element : Box) (now : Nat) : String :=
  element.id ++ "-" ++ toString (element.version.getD 0) ++ "-" ++ toString now

/-- One queued change record. -/
structure Change where
  id : String
  elementId : String
  ctype : SChangeType
  element : Box
  timestamp : Nat
deriving DecidableEq, Repr

/-- Mutable state of the sync-queue hook: the ordered pending-change list
(`syncQueueRef`) and the dedup map (`pendingChangesRef`). -/
structure SyncQueueState where
  syncQueue : List Change
  pendingChanges : List (String × Change)
deriving DecidableEq, Repr

def emptySyncQueue : SyncQueueState := ⟨[], []⟩

/-- The change record built by `queueChange`. -/
def mkChange (element : Box) (ctype : SChangeType) (now : Nat) : Change :=
  { id := generateChangeId element now
    elementId := element.id
    ctype := ctype
    element := if ctype = SChangeType.remove then strippedBox element.id else element
    timestamp := now }

/-- `queueChange` (useCanvasSync.js lines 27-53): skip if the exact change
id is already pending, otherwise record it in the dedup map and append it
to the ordered queue.  (The subsequent flush-or-debounce scheduling does
not alter these two pieces of state.) -/
def queueChange (st : SyncQueueState) (element : Box) (ctype : SChangeType) (now : Nat) :
    SyncQueueState :=
  let changeId := generateChangeId element now
  if jsMapHas st.pendingChanges changeId then st
  else
    { syncQueue := st.syncQueue ++ [mkChange element ctype now]
      pendingChanges := jsMapSet st.pendingChanges changeId (mkChange element ctype now) }

def elemDemoC3 : Box := { id := "a", version := some 1 }

/-- C3 counterexample: the dedup key includes `Date.now()`, so re-queuing
the identical `(elementId, version)` one millisecond later is NOT a no-op:
a second change record is appended while the first is still pending. -/
theorem queueChange_requeue_not_noop :
    queueChange (queueChange emptySyncQueue elemDemoC3 SChangeType.update 0)
        elemDemoC3 SChangeType.update 1 ≠
      queueChange emptySyncQueue elemDemoC3 SChangeType.update 0 ∧
    (queueChange (queueChange emptySyncQueue elemDemoC3 SChangeType.update 0)
        elemDemoC3 SChangeType.update 1).syncQueue.length = 2 := by
  refine ⟨by decide, by decide⟩

/-- C3 amended: the dedup map is keyed by `(elementId, version, Date.now())`,
not `(elementId, version)`.  Re-queuing is a no-op exactly when the full
change id (including the enqueue millisecond) is already pending: then both
the pending-change list and the dedup map are left unchanged; otherwise a
new change record is appended to the queue and registered in the map even
for an identical `(elementId, version)` pair. -/
theorem queueChange_noop_iff_exact_id_pending (st : SyncQueueState) (element : Box)
    (ctype : SChangeType) (now : Nat) :
    (jsMapHas st.pendingChanges (generateChangeId element now) = true →
      queueChange st element ctype now = st) ∧
    (jsMapHas st.pendingChanges (generateChangeId element now) = false →
      (queueChange st element ctype now).syncQueue =
        st.syncQueue ++ [mkChange element ctype now] ∧
      (queueChange st element ctype now).pendingChanges =
        jsMapSet st.pendingChanges (generateChangeId element now)
          (mkChange element ctype now)) := by
  constructor
  · intro h
    simp [queueChange, h]
  · intro h
    simp [queueChange, h]

/-- C3 amended witness: re-queuing the same element at the same millisecond
is a no-op on a concrete state. -/
theorem queueChange_noop_iff_exact_id_pending_witness :
    jsMapHas (queueChange emptySyncQueue elemDemoC3 SChangeType.update 0).pendingChanges
        (generateChangeId elemDemoC3 0) = true ∧
    queueChange (queueChange emptySyncQueue elemDemoC3 SChangeType.update 0)
        elemDemoC3 SChangeType.update 0 =
      queueChange emptySyncQueue elemDemoC3 SChangeType.update 0 :=
  ⟨by decide,
    (queueChange_noop_iff_exact_id_pending
      (queueChange emptySyncQueue elemDemoC3 SChangeType.update 0)
      elemDemoC3 SChangeType.update 0).1 (by decide)⟩

/-! ## Flush partitioning (C4): processSyncQueue, useCanvasSync.js lines 67-126 -/

/-- Membership test used below for already-seen keys. -/
def seenHas (seen : List String) (x : String) : Bool :=
  seen.any (fun s => s == x)

/-- The duplicate-removal pass
`filter((el, index, arr) => arr.findIndex(e => e.id === el.id) === index)`
of `processSyncQueue`: an entry is kept iff its index is the first index
carrying its key, i.e. iff no earlier entry shares its key.  `seen` holds
the keys of the earlier entries. -/
def keepFirstBy (key : α → String) : List α → List String → List α
  | [], _ => []
  | a :: rest, seen =>
    if seenHas seen (key a) then keepFirstBy key rest seen
    else a :: keepFirstBy key rest (key a :: seen)

/-- `changed` part of the flushed payload: the elements of the update-type
changes, deduplicated by id keeping the first occurrence. -/
def changedOfFlush (changes : List Change) : List Box :=
  keepFirstBy (fun b => b.id)
    ((changes.filter (fun c => c.ctype == SChangeType.update)).map (fun c => c.element)) []

/-- `removed` part of the flushed payload: the element ids of the
remove-type changes, deduplicated (`indexOf(id) === index`) keeping the
first occurrence. -/
def removedOfFlush (changes : List Change) : List String :=
  keepFirstBy (fun s => s)
    ((changes.filter (fun c => c.ctype == SChangeType.remove)).map (fun c => c.element.id)) []

/-- The `SyncPayload` built by `processSyncQueue`; `none` when both parts
are empty (the flush returns early without invoking the callback). -/
structure SyncPayload where
  changed : List Box
  removed : List String
  timestamp : Nat
  userId : String
  noteId : String
deriving DecidableEq, Repr

def buildSyncPayload (changes : List Change) (now : Nat) (userId noteId : String) :
    Option SyncPayload :=
  if changedOfFlush changes = [] ∧ removedOfFlush changes = [] then none
  else some
    { changed := changedOfFlush changes
      removed := removedOfFlush changes
      timestamp := now
      userId := userId
      noteId := noteId }

theorem keepFirstBy_subset (key : α → String) (l : List α) (seen : List String) (a : α)
    (h : a ∈ keepFirstBy key l seen) : a ∈ l := by
  induction l generalizing seen with
  | nil => simp [keepFirstBy] at h
  | cons b rest ih =>
    by_cases hb : seenHas seen (key b) = true
    · simp only [keepFirstBy, hb, if_pos] at h
      exact List.mem_cons_of_mem b (ih _ h)
    · simp only [keepFirstBy, hb, if_neg, Bool.not_eq_true] at h
      rcases List.mem_cons.mp h with h | h
      · exact h ▸ List.mem_cons_self b rest
      · exact List.mem_cons_of_mem b (ih _ h)

theorem keepFirstBy_seen_not_mem (key : α → String) (l : List α) (seen : List String)
    (x : String) (hx : seenHas seen x = true) :
    x ∉ (keepFirstBy key l seen).map key := by
  induction l generalizing seen with
  | nil => simp [keepFirstBy]
  | cons b rest ih =>
    by_cases hb : seenHas seen (key b) = true
    · simp only [keepFirstBy, hb, if_pos]
      exact ih seen hx
    · simp only [keepFirstBy, hb, if_neg, Bool.not_eq_true, List.map_cons]
      intro hmem
      rcases List.mem_cons.mp hmem with h | h
      · rw [h] at hx
        exact absurd hx (by simp [hb])
      · have : seenHas (key b :: seen) x = true := by
          simp [seenHas, List.any_cons]
          right
          simpa [seenHas] using hx
        exact absurd h (ih (key b :: seen) this)

theorem keepFirstBy_nodup (key : α → String) (l : List α) (seen : List String) :
    ((keepFirstBy key l seen).map key).Nodup := by
  induction l generalizing seen with
  | nil => simp [keepFirstBy]
  | cons b rest ih =>
    by_cases hb : seenHas seen (key b) = true
    · simp only [keepFirstBy, hb, if_pos]
      exact ih seen
    · simp only [keepFirstBy, hb, if_neg, Bool.not_eq_true, List.map_cons]
      refine List.nodup_cons.mpr ⟨?_, ih (key b :: seen)⟩
      exact keepFirstBy_seen_not_mem key rest (key b :: seen) (key b)
        (by simp [seenHas, List.any_cons])

theorem keepFirstBy_find? (key : α → String) (l : List α) (seen : List String)
    (i : String) (hi : seenHas seen i = false) :
    (keepFirstBy key l seen).find? (fun a => key a == i) =
      l.find? (fun a => key a == i) := by
  induction l generalizing seen with
  | nil => rfl
  | cons b rest ih =>
    by_cases hk : key b = i
    · have hb : seenHas seen (key b) = false := hk ▸ hi
      simp only [keepFirstBy, hb, if_neg, Bool.not_eq_true]
      rw [List.find?_cons_of_pos _ (by simp [hk]), List.find?_cons_of_pos _ (by simp [hk])]
    · rw [List.find?_cons_of_neg _ (by simp [hk])]
      by_cases hb : seenHas seen (key b) = true
      · simp only [keepFirstBy, hb, if_pos]
        exact ih seen hi
      · simp only [keepFirstBy, hb, if_neg, Bool.not_eq_true]
        rw [List.find?_cons_of_neg _ (by simp [hk])]
        refine ih (key b :: seen) ?_
        have h2 : (key b == i) = false := beq_eq_false_iff_ne.mpr hk
        simp only [seenHas, List.any_cons] at hi ⊢
        rw [h2, Bool.false_or]
        exact hi

def updV1C4 : Box := { id := "a", version := some 1, payload := 1 }

def updV2C4 : Box := { id := "a", version := some 2, payload := 2 }

def changesDemoC4 : List Change :=
  [mkChange updV1C4 SChangeType.update 0, mkChange updV2C4 SChangeType.update 1]

/-- C4 counterexample: two queued updates for the same element, versions 1
then 2.  The flushed `changed` list keeps the FIRST queued snapshot
(version 1), not the latest queued version: `findIndex === index` keeps the
first occurrence of each id. -/
theorem flush_keeps_first_version_not_latest :
    changedOfFlush changesDemoC4 = [updV1C4] ∧
    changedOfFlush changesDemoC4 ≠ [updV2C4] := by
  refine ⟨by decide, by decide⟩

/-- C4 amended: on every flush, `changed` contains exactly one entry per
element id — namely the EARLIEST queued update for that id (the first
occurrence, not the latest version) — and `removed` contains the
deduplicated removed ids.  A burst of rapid edits to one element thus
flushes one batch whose single entry for the element is the first queued
state. -/
theorem flush_partition_one_entry_per_id (changes : List Change) :
    ((changedOfFlush changes).map (fun b => b.id)).Nodup ∧
    (∀ i : String, (changedOfFlush changes).find? (fun b => b.id == i) =
      ((changes.filter (fun c => c.ctype == SChangeType.update)).map
        (fun c => c.element)).find? (fun b => b.id == i)) ∧
    (∀ b : Box, b ∈ changedOfFlush changes →
      b ∈ (changes.filter (fun c => c.ctype == SChangeType.update)).map
        (fun c => c.element)) ∧
    (removedOfFlush changes).Nodup ∧
    (∀ i : String, i ∈ removedOfFlush changes ↔
      i ∈ (changes.filter (fun c => c.ctype == SChangeType.remove)).map
        (fun c => c.element.id)) := by
  refine ⟨keepFirstBy_nodup _ _ _, fun i => keepFirstBy_find? _ _ [] i rfl,
    fun b hb => keepFirstBy_subset _ _ [] b hb, ?_, fun i => ⟨?_, ?_⟩⟩
  · have h := keepFirstBy_nodup (fun s => s)
      ((changes.filter (fun c => c.ctype == SChangeType.remove)).map
        (fun c => c.element.id)) []
    simpa [removedOfFlush] using h
  · exact fun h => keepFirstBy_subset _ _ [] i h
  · intro h
    have hfind := keepFirstBy_find? (fun s => s)
      ((changes.filter (fun c => c.ctype == SChangeType.remove)).map
        (fun c => c.element.id)) [] i rfl
    have hsome : (((changes.filter (fun c => c.ctype == SChangeType.remove)).map
        (fun c => c.element.id)).find? (fun a => a == i)).isSome :=
      List.find?_isSome.mpr ⟨i, h, by simp⟩
    rw [← hfind] at hsome
    rcases Option.isSome_iff_exists.mp hsome with ⟨x, hx⟩
    have hxm := List.find?_some hx
    have hxmem := List.mem_of_find?_eq_some hx
    have : x = i := by simpa using hxm
    exact this ▸ hxmem

/-- C4 amended witness: on the concrete two-update batch the single changed
entry is the first queued update, and it comes from the update-type
changes. -/
theorem flush_partition_one_entry_per_id_witness :
    updV1C4 ∈ changedOfFlush changesDemoC4 ∧
    updV1C4 ∈ (changesDemoC4.filter (fun c => c.ctype == SChangeType.update)).map
      (fun c => c.element) :=
  ⟨by decide, (flush_partition_one_entry_per_id changesDemoC4).2.2.1 updV1C4 (by decide)⟩

/-! ## Flush failure policy (C5): catch branch of processSyncQueue,
useCanvasSync.js lines 128-144 -/

/-- The delay computed in the catch branch:
`Math.min(1000, Math.pow(2, syncQueueRef.current.length) * 100)`.
The exponent is the CURRENT length of the sync queue at failure-handling
time (the queue was emptied when the flush began, so this counts changes
enqueued while the callback was running) — the code keeps no counter of
consecutive failed attempts. -/
def retryDelay (queueLen : Nat) : Nat := min 1000 (2 ^ queueLen * 100)

/-- The re-queue loop of the catch branch: each change of the failed batch
whose change id is not pending again is appended to the queue and
re-registered in the dedup map. -/
def requeueFailed (st : SyncQueueState) (changes : List Change) : SyncQueueState :=
  changes.foldl (fun acc change =>
    if jsMapHas acc.pendingChanges change.id then acc
    else
      { syncQueue := acc.syncQueue ++ [change]
        pendingChanges := jsMapSet acc.pendingChanges change.id change }) st

/-- One failed flush attempt of a quiescent client (no concurrent enqueues
while the callback runs): the batch is the whole queue, the queue is
cleared and the batch ids are dropped from the dedup map before the
callback, the callback throws, the delay is computed from the now-current
queue length, and the batch is re-queued.  Returns the post-re-queue state
and the computed delay. -/
def failedFlushStep (st : SyncQueueState) : SyncQueueState × Nat :=
  let changes := st.syncQueue
  let cleared : SyncQueueState :=
    { syncQueue := []
      pendingChanges := changes.foldl (fun m c => jsMapDelete m c.id) st.pendingChanges }
  (requeueFailed cleared changes, retryDelay cleared.syncQueue.length)

theorem jsMapHas_jsMapSet (m : List (String × α)) (k x : String) (v : α) :
    jsMapHas (jsMapSet m k v) x = ((k == x) || jsMapHas m x) := by
  unfold jsMapSet jsMapHas
  by_cases hm : m.any (fun p => p.1 == k) = true
  · rw [if_pos hm]
    rcases List.any_eq_true.mp hm with ⟨p0, hp0, hpk⟩
    apply Bool.eq_iff_iff.mpr
    simp only [List.any_eq_true, List.mem_map, Bool.or_eq_true, beq_iff_eq] at *
    constructor
    · rintro ⟨q, ⟨p, hp, rfl⟩, hq⟩
      by_cases hpk2 : p.1 = k
      · left
        simpa [hpk2] using hq
      · right
        exact ⟨p, hp, by simpa [hpk2] using hq⟩
    · rintro (rfl | ⟨p, hp, hpx⟩)
      · exact ⟨(k, v), ⟨p0, hp0, by simp [hpk]⟩, rfl⟩
      · by_cases hpk2 : p.1 = k
        · exact ⟨(k, v), ⟨p, hp, by simp [hpk2]⟩, by rw [← hpx, hpk2]⟩
        · exact ⟨p, ⟨p, hp, by simp [hpk2]⟩, hpx⟩
  · rw [if_neg hm]
    simp [List.any_append, Bool.or_comm]

theorem requeueFailed_has_mono (st : SyncQueueState) (changes : List Change) (x : String)
    (h : jsMapHas st.pendingChanges x = true) :
    jsMapHas (requeueFailed st changes).pendingChanges x = true := by
  induction changes generalizing st with
  | nil => exact h
  | cons c rest ih =>
    show jsMapHas (requeueFailed _ rest).pendingChanges x = true
    by_cases hc : jsMapHas st.pendingChanges c.id = true
    · simp only [requeueFailed, List.foldl_cons, hc, if_pos]
      exact ih st h
    · simp only [requeueFailed, List.foldl_cons, hc, if_neg, Bool.not_eq_true]
      refine ih _ ?_
      rw [jsMapHas_jsMapSet, h, Bool.or_true]

theorem requeueFailed_queue_mono (st : SyncQueueState) (changes : List Change) (c : Change)
    (h : c ∈ st.syncQueue) : c ∈ (requeueFailed st changes).syncQueue := by
  induction changes generalizing st with
  | nil => exact h
  | cons d rest ih =>
    by_cases hd : jsMapHas st.pendingChanges d.id = true
    · simp only [requeueFailed, List.foldl_cons, hd, if_pos]
      exact ih st h
    · simp only [requeueFailed, List.foldl_cons, hd, if_neg, Bool.not_eq_true]
      exact ih _ (List.mem_append_left _ h)

def failDelaysDemo : Nat × Nat :=
  ((failedFlushStep (queueChange emptySyncQueue elemDemoC3 SChangeType.update 0)).2,
   (failedFlushStep
     (failedFlushStep (queueChange emptySyncQueue elemDemoC3 SChangeType.update 0)).1).2)

/-- C5 counterexample: two consecutive failed flushes of the same single
change.  Both delays are 100 ms, because the exponent in the code is the
current queue length (0 at failure-handling time), not a consecutive-failure
counter: the claimed formula would require the second delay to be
`min(1000, 2^1*100) = 200` (or 400 counting from 1), never again 100. -/
theorem retry_delay_not_exponential_in_failures :
    failDelaysDemo = (100, 100) ∧
    failDelaysDemo.2 ≠ retryDelay 1 ∧
    failDelaysDemo.2 ≠ retryDelay 2 := by
  refine ⟨by decide, by decide, by decide⟩

/-- C5 amended: on a failed flush every change of the batch ends up pending
again (at-least-once from the queue's perspective), and every batch change
whose id is not already pending is appended to the queue; but the delay is
`min(1000 ms, 2^q * 100 ms)` where `q` is the number of changes sitting in
the sync queue when the failure is handled — the code keeps no
consecutive-failure counter, so with a quiescent queue the delay is always
100 ms. -/
theorem failed_flush_requeues_batch (st : SyncQueueState) (changes : List Change) :
    (∀ c ∈ changes, jsMapHas (requeueFailed st changes).pendingChanges c.id = true) ∧
    ((changes.map (fun c => c.id)).Nodup →
      ∀ c ∈ changes, jsMapHas st.pendingChanges c.id = false →
        c ∈ (requeueFailed st changes).syncQueue) ∧
    (∀ q : Nat, retryDelay q = min 1000 (2 ^ q * 100)) := by
  refine ⟨?_, ?_, fun q => rfl⟩
  · intro c hc
    induction changes generalizing st with
    | nil => exact absurd hc (List.not_mem_nil c)
    | cons d rest ih =>
      by_cases hd : jsMapHas st.pendingChanges d.id = true
      · simp only [requeueFailed, List.foldl_cons, hd, if_pos]
        rcases List.mem_cons.mp hc with rfl | hc2
        · exact requeueFailed_has_mono st rest c.id hd
        · exact ih st hc2
      · simp only [requeueFailed, List.foldl_cons, hd, if_neg, Bool.not_eq_true]
        rcases List.mem_cons.mp hc with rfl | hc2
        · refine requeueFailed_has_mono _ rest c.id ?_
          rw [jsMapHas_jsMapSet]
          simp
        · exact ih _ hc2
  · intro hnd c hc hcp
    induction changes generalizing st with
    | nil => exact absurd hc (List.not_mem_nil c)
    | cons d rest ih =>
      rcases List.mem_cons.mp hc with rfl | hc2
      · simp only [requeueFailed, List.foldl_cons, hcp, if_neg, Bool.not_eq_true]
        exact requeueFailed_queue_mono _ rest c
          (List.mem_append_right _ (List.mem_cons_self c []))
      · have hnd2 : (rest.map (fun c => c.id)).Nodup := (List.nodup_cons.mp hnd).2
        have hdc : d.id ≠ c.id := by
          intro he
          apply (List.nodup_cons.mp hnd).1
          show d.id ∈ List.map (fun c => c.id) rest
          rw [he]
          exact List.mem_map_of_mem (fun c => c.id) hc2
        by_cases hd : jsMapHas st.pendingChanges d.id = true
        · simp only [requeueFailed, List.foldl_cons, hd, if_pos]
          exact ih st hnd2 hc2 hcp
        · simp only [requeueFailed, List.foldl_cons, hd, if_neg, Bool.not_eq_true]
          refine ih _ hnd2 hc2 ?_
          rw [jsMapHas_jsMapSet, hcp, Bool.or_false]
          exact beq_eq_false_iff_ne.mpr hdc

def failChangeC5 : Change := mkChange elemDemoC3 SChangeType.update 5

/-- C5 amended witness: a concrete one-change failed batch is re-queued. -/
theorem failed_flush_requeues_batch_witness :
    failChangeC5 ∈ [failChangeC5] ∧
    jsMapHas (requeueFailed emptySyncQueue [failChangeC5]).pendingChanges failChangeC5.id =
      true ∧
    (([failChangeC5].map (fun c => c.id)).Nodup ∧
      jsMapHas emptySyncQueue.pendingChanges failChangeC5.id = false) ∧
    failChangeC5 ∈ (requeueFailed emptySyncQueue [failChangeC5]).syncQueue :=
  ⟨by decide,
    (failed_flush_requeues_batch emptySyncQueue [failChangeC5]).1 failChangeC5 (by decide),
    ⟨by decide, by decide⟩,
    (failed_flush_requeues_batch emptySyncQueue [failChangeC5]).2.1 (by decide) failChangeC5
      (by decide) (by decide)⟩

/-! ## Reconnection error handling (C6): handleConnectionError,
src/src/hooks/useBoxSyncChannel.js lines 268-296 -/

/-- Connection state of the box sync channel (`connectionStateRef` plus the
`connectionStatus` React state). -/
structure ConnState where
  isConnected : Bool
  reconnectAttempts : Nat
  status : String
deriving DecidableEq, Repr

/-- Observable outcome of one `handleConnectionError` invocation: the
persisted state mutations, the reconnect delay scheduled (if any), and the
exception that escaped (if any). -/
structure ConnErrorResult where
  state : ConnState
  scheduled : Option Nat
  thrown : Option String
deriving DecidableEq, Repr

/-- `handleConnectionError`: marks the channel disconnected and the status
error, then calls `setLastSyncError(error.message)` (line 273) — a function
that is defined nowhere in the repository — so a ReferenceError escapes
before the reconnection block is reached: no reconnect is ever scheduled,
the attempt counter is never advanced, and the failed branch is
unreachable.  The configuration parameters are therefore never consulted. -/
def handleConnectionError (_maxReconnectAttempts _reconnectInterval : Nat)
    (st : ConnState) : ConnErrorResult :=
  { state := { st with isConnected := false, status := "error" }
    scheduled := none
    thrown := some "ReferenceError: setLastSyncError is not defined" }

/-- The reconnection block after the throwing call (lines 279-295),
unreachable in the program; embedded separately to state what it would do:
if `reconnectAttempts < maxReconnectAttempts`, increment the counter and
schedule `reconnectInterval * 2^(reconnectAttempts - 1)` with the
incremented counter; otherwise set the terminal failed status and schedule
nothing. -/
def reconnectBlockAfterThrow (maxReconnectAttempts reconnectInterval : Nat)
    (st : ConnState) : ConnState × Option Nat :=
  if st.reconnectAttempts < maxReconnectAttempts then
    let st2 : ConnState := { st with reconnectAttempts := st.reconnectAttempts + 1 }
    (st2, some (reconnectInterval * 2 ^ (st2.reconnectAttempts - 1)))
  else
    ({ st with status := "failed" }, none)

/-- `k` consecutive connection failures, each handled by
`handleConnectionError`. -/
def iterateConnErrors (maxReconnectAttempts reconnectInterval : Nat) :
    Nat → ConnState → ConnState
  | 0, st => st
  | k + 1, st =>
    iterateConnErrors maxReconnectAttempts reconnectInterval k
      (handleConnectionError maxReconnectAttempts reconnectInterval st).state

/-- A freshly connected channel (defaults of useBoxSyncChannel). -/
def connDemo : ConnState :=
  { isConnected := true, reconnectAttempts := 0, status := "connected" }

/-- C6 counterexample: with the defaults (maxReconnectAttempts = 5,
reconnectInterval = 5000 ms) the first connection failure schedules no
reconnection delay at all — in particular not the claimed
`reconnectInterval * 2^1` — because `handleConnectionError` throws a
ReferenceError (`setLastSyncError` is undefined) before its reconnection
block. -/
theorem connection_error_schedules_no_reconnect :
    (handleConnectionError 5 5000 connDemo).scheduled = none ∧
    (handleConnectionError 5 5000 connDemo).scheduled ≠ some (5000 * 2 ^ 1) ∧
    (handleConnectionError 5 5000 connDemo).thrown.isSome = true := by
  refine ⟨by decide, by decide, by decide⟩

theorem iterateConnErrors_attempts (maxA R : Nat) (k : Nat) (st : ConnState) :
    (iterateConnErrors maxA R k st).reconnectAttempts = st.reconnectAttempts := by
  induction k generalizing st with
  | zero => rfl
  | succ n ih =>
    show (iterateConnErrors maxA R n
      (handleConnectionError maxA R st).state).reconnectAttempts = _
    rw [ih]
    rfl

theorem iterateConnErrors_status (maxA R : Nat) (k : Nat) (st : ConnState)
    (hk : 1 ≤ k) : (iterateConnErrors maxA R k st).status = "error" := by
  induction k generalizing st with
  | zero => omega
  | succ n ih =>
    show (iterateConnErrors maxA R n (handleConnectionError maxA R st).state).status = _
    rcases Nat.eq_zero_or_pos n with rfl | hn
    · rfl
    · exact ih _ hn

/-- C6 amended: every invocation of `handleConnectionError` marks the
channel disconnected with status error and then throws (the call to the
undefined `setLastSyncError` raises a ReferenceError before the
reconnection block), so after any number k ≥ 1 of consecutive failures no
reconnection delay has ever been scheduled, `reconnectAttempts` still has
its initial value, and the terminal failed state is unreachable; the
unreachable reconnection block after the throw would have scheduled
`reconnectInterval * 2^a` for pre-increment attempt count `a < max`
(i.e. `2^(k-1)` at the k-th failure, not the claimed `2^k`) and, at
`a ≥ max`, would have set the failed status and scheduled nothing. -/
theorem connection_error_throws_before_backoff (maxA R : Nat) :
    (∀ st : ConnState, ∀ k : Nat, 1 ≤ k →
      (handleConnectionError maxA R (iterateConnErrors maxA R (k - 1) st)).scheduled =
        none ∧
      (handleConnectionError maxA R (iterateConnErrors maxA R (k - 1) st)).thrown =
        some "ReferenceError: setLastSyncError is not defined" ∧
      (iterateConnErrors maxA R k st).reconnectAttempts = st.reconnectAttempts ∧
      (iterateConnErrors maxA R k st).status = "error") ∧
    (∀ st2 : ConnState, st2.reconnectAttempts < maxA →
      (reconnectBlockAfterThrow maxA R st2).2 =
        some (R * 2 ^ st2.reconnectAttempts)) ∧
    (∀ st2 : ConnState, maxA ≤ st2.reconnectAttempts →
      (reconnectBlockAfterThrow maxA R st2).2 = none ∧
      (reconnectBlockAfterThrow maxA R st2).1.status = "failed") := by
  refine ⟨fun st k hk => ⟨rfl, rfl, iterateConnErrors_attempts maxA R k st,
    iterateConnErrors_status maxA R k st hk⟩, ?_, ?_⟩
  · intro st2 h
    unfold reconnectBlockAfterThrow
    rw [if_pos h]
    simp
  · intro st2 h
    unfold reconnectBlockAfterThrow
    rw [if_neg (Nat.not_lt.mpr h)]
    exact ⟨rfl, rfl⟩

/-- C6 amended witness: two consecutive failures from a fresh channel
schedule nothing, leave the attempt counter at 0 and the status at
error. -/
theorem connection_error_throws_before_backoff_witness :
    1 ≤ 2 ∧
    ((handleConnectionError 5 5000 (iterateConnErrors 5 5000 (2 - 1) connDemo)).scheduled =
        none ∧
      (handleConnectionError 5 5000 (iterateConnErrors 5 5000 (2 - 1) connDemo)).thrown =
        some "ReferenceError: setLastSyncError is not defined" ∧
      (iterateConnErrors 5 5000 2 connDemo).reconnectAttempts =
        connDemo.reconnectAttempts ∧
      (iterateConnErrors 5 5000 2 connDemo).status = "error") :=
  ⟨by decide, (connection_error_throws_before_backoff 5 5000).1 connDemo 2 (by decide)⟩

/-! ## Canvas State Manager (C7): useCanvasState in src/unnamed/part_017,
applyExternalUpdate at lines 815-850 -/

/-- Local tool state (useCanvasTools.js); never serialized over sync. -/
structure ToolState where
  selectedTool : String
  toolOptions : List (String × String)
  lastChangeAt : Nat
deriving DecidableEq, Repr

/-- Entry of `elementMapRef`: the element plus its `_version` field
(`element.version || 0`), as stored by `initializeElementMap`. -/
structure StoredBox where
  box : Box
  storedVersion : Nat
deriving DecidableEq, Repr

/-- `initializeElementMap` (part_017 lines 741-749): clear the map and
re-insert every element keyed by id with `_version := version || 0`. -/
def initializeElementMap (elements : List Box) : List (String × StoredBox) :=
  elements.foldl (fun m el => jsMapSet m el.id ⟨el, el.version.getD 0⟩) []

/-- `canvasContentRef`. -/
structure CanvasContent where
  elements : List Box
  files : List (String × String)
  version : Nat
deriving DecidableEq, Repr

/-- Combined state of the canvas orchestrator: content and element map
(the only pieces `applyExternalUpdate` touches), tool state
(useCanvasTools) and the sync-queue state (useCanvasSync). -/
structure CanvasState where
  content : CanvasContent
  elementMap : List (String × StoredBox)
  toolState : ToolState
  syncQueue : SyncQueueState
deriving DecidableEq, Repr

/-- A `{changed, removed}` payload received from another client. -/
structure UpdatePayload where
  changed : List Box
  removed : List String
deriving DecidableEq, Repr

/-- `applyExternalUpdate` (part_017 lines 815-850): build a map of the
current elements, delete each removed id, `Map.set` each changed element,
take the values as the new element array, bump the content version and
rebuild the element map.  It queues nothing and never touches the tool
state.  Returns the new state and the updated element array. -/
def applyExternalUpdate (st : CanvasState) (payload : UpdatePayload) :
    CanvasState × List Box :=
  let elementMap0 := st.content.elements.foldl
    (fun m el => jsMapSet m el.id el) ([] : List (String × Box))
  let m1 := payload.removed.foldl (fun m i => jsMapDelete m i) elementMap0
  let m2 := payload.changed.foldl (fun m el => jsMapSet m el.id el) m1
  let updatedElements := jsMapValues m2
  ({ st with
      content := { st.content with
        elements := updatedElements
        version := st.content.version + 1 }
      elementMap := initializeElementMap updatedElements },
   updatedElements)

theorem jsMapHas_jsMapDelete (m : List (String × α)) (k i : String) :
    jsMapHas (jsMapDelete m k) i = (!(k == i) && jsMapHas m i) := by
  induction m with
  | nil => simp [jsMapDelete, jsMapHas]
  | cons p rest ih =>
    simp only [jsMapDelete, jsMapHas, List.filter_cons, List.any_cons] at *
    by_cases hpk : p.1 = k
    · rw [if_neg (by simp [hpk])]
      rw [ih]
      have : (p.1 == i) = (k == i) := by rw [hpk]
      rw [this]
      cases k == i <;> simp
    · rw [if_pos (by simp [hpk])]
      simp only [List.any_cons]
      rw [ih]
      by_cases hki : k = i
      · have : (p.1 == i) = false := beq_eq_false_iff_ne.mpr (fun h => hpk (h.trans hki.symm))
        rw [this]
        simp [hki]
      · have : (k == i) = false := beq_eq_false_iff_ne.mpr hki
        rw [this]
        simp

theorem jsMapHas_foldSetBox (l : List Box) (m : List (String × Box)) (i : String) :
    jsMapHas (l.foldl (fun m el => jsMapSet m el.id el) m) i =
      (l.any (fun el => el.id == i) || jsMapHas m i) := by
  induction l generalizing m with
  | nil => simp
  | cons a rest ih =>
    simp only [List.foldl_cons, List.any_cons, ih, jsMapHas_jsMapSet]
    cases a.id == i <;> cases rest.any (fun el => el.id == i) <;> simp

theorem jsMapHas_foldDelete (removed : List String) (m : List (String × α)) (i : String) :
    jsMapHas (removed.foldl (fun m k => jsMapDelete m k) m) i =
      (!(seenHas removed i) && jsMapHas m i) := by
  induction removed generalizing m with
  | nil => simp [seenHas]
  | cons k rest ih =>
    simp only [List.foldl_cons, ih, jsMapHas_jsMapDelete, seenHas, List.any_cons]
    cases k == i <;> cases rest.any (fun s => s == i) <;> simp

/-- Key-value coherence of a box map: every stored box carries its key as
its id. -/
def WellKeyedBox (m : List (String × Box)) : Prop := ∀ p ∈ m, (p.2).id = p.1

theorem wellKeyedBox_jsMapSet (m : List (String × Box)) (v : Box)
    (h : WellKeyedBox m) : WellKeyedBox (jsMapSet m v.id v) := by
  unfold jsMapSet
  by_cases hm : m.any (fun p => p.1 == v.id) = true
  · rw [if_pos hm]
    intro p hp
    rcases List.mem_map.mp hp with ⟨q, hq, rfl⟩
    by_cases hqk : q.1 == v.id
    · simp [hqk]
    · rw [if_neg hqk]
      exact h q hq
  · rw [if_neg hm]
    intro p hp
    rcases List.mem_append.mp hp with hp2 | hp2
    · exact h p hp2
    · rcases List.mem_singleton.mp hp2 with rfl
      rfl

theorem wellKeyedBox_jsMapDelete (m : List (String × Box)) (k : String)
    (h : WellKeyedBox m) : WellKeyedBox (jsMapDelete m k) :=
  fun p hp => h p (List.mem_of_mem_filter hp)

theorem wellKeyedBox_foldSet (l : List Box) (m : List (String × Box))
    (h : WellKeyedBox m) :
    WellKeyedBox (l.foldl (fun m el => jsMapSet m el.id el) m) := by
  induction l generalizing m with
  | nil => exact h
  | cons a rest ih => exact ih _ (wellKeyedBox_jsMapSet m a h)

theorem wellKeyedBox_foldDelete (removed : List String) (m : List (String × Box))
    (h : WellKeyedBox m) :
    WellKeyedBox (removed.foldl (fun m k => jsMapDelete m k) m) := by
  induction removed generalizing m with
  | nil => exact h
  | cons k rest ih => exact ih _ (wellKeyedBox_jsMapDelete m k h)

theorem exists_values_iff_has (m : List (String × Box)) (h : WellKeyedBox m) (i : String) :
    (∃ e ∈ jsMapValues m, e.id = i) ↔ jsMapHas m i = true := by
  simp only [jsMapValues, List.mem_map, jsMapHas, List.any_eq_true, beq_iff_eq]
  constructor
  · rintro ⟨e, ⟨p, hp, rfl⟩, hid⟩
    exact ⟨p, hp, (h p hp) ▸ hid⟩
  · rintro ⟨p, hp, hpi⟩
    exact ⟨p.2, ⟨p, hp, rfl⟩, (h p hp).symm ▸ hpi⟩

theorem seenHas_eq_false_iff (l : List String) (x : String) :
    seenHas l x = false ↔ x ∉ l := by
  simp only [seenHas]
  simp [List.any_eq_true]
  constructor
  · intro h hx
    exact h x hx rfl
  · intro h y hy he
    exact h (he ▸ hy)

theorem anyBoxId_eq_true_iff (l : List Box) (i : String) :
    (l.any (fun el => el.id == i) = true) ↔ ∃ e ∈ l, e.id = i := by
  simp [List.any_eq_true]

/-- C7: frame property of `applyExternalUpdate`: for every `{changed,
removed}` payload and every canvas state, the call leaves the tool state
and the sync-queue state (pending list and dedup map) exactly as they
were — it queues nothing and never mutates `ToolState` — while rebuilding
the element set: an id is present in the returned elements iff it occurs
in `changed`, or it was present before and is not in `removed`. -/
theorem applyExternalUpdate_tool_and_queue_isolated (st : CanvasState)
    (payload : UpdatePayload) :
    (applyExternalUpdate st payload).1.toolState = st.toolState ∧
    (applyExternalUpdate st payload).1.syncQueue = st.syncQueue ∧
    (∀ i : String,
      (∃ e ∈ (applyExternalUpdate st payload).2, e.id = i) ↔
        ((∃ e ∈ payload.changed, e.id = i) ∨
         ((∃ e ∈ st.content.elements, e.id = i) ∧ i ∉ payload.removed))) := by
  refine ⟨rfl, rfl, fun i => ?_⟩
  have hwk0 : WellKeyedBox (st.content.elements.foldl
      (fun m el => jsMapSet m el.id el) []) :=
    wellKeyedBox_foldSet _ _ (fun p hp => absurd hp (List.not_mem_nil p))
  have hwk1 := wellKeyedBox_foldDelete payload.removed _ hwk0
  have hwk2 := wellKeyedBox_foldSet payload.changed _ hwk1
  rw [show (applyExternalUpdate st payload).2 =
      jsMapValues (payload.changed.foldl (fun m el => jsMapSet m el.id el)
        (payload.removed.foldl (fun m k => jsMapDelete m k)
          (st.content.elements.foldl (fun m el => jsMapSet m el.id el) []))) from rfl]
  rw [exists_values_iff_has _ hwk2 i, jsMapHas_foldSetBox, jsMapHas_foldDelete,
    jsMapHas_foldSetBox]
  simp only [jsMapHas, List.any_nil, Bool.or_false, Bool.or_eq_true, Bool.and_eq_true,
    Bool.not_eq_true', anyBoxId_eq_true_iff, seenHas_eq_false_iff]
  constructor
  · rintro (h1 | ⟨hnr, h2⟩)
    · exact Or.inl h1
    · exact Or.inr ⟨h2, hnr⟩
  · rintro (h1 | ⟨h2, hnr⟩)
    · exact Or.inl h1
    · exact Or.inr ⟨hnr, h2⟩

/-! ## Remote event application (C8, C10): applyRemoteChanges
(src/unnamed/part_019, lines 192-224) and the conflict filter of
handleRemoteUpdate (src/unnamed/part_017, lines 639-661, with
resolveConflicts at lines 500-515) -/

/-- A wire-level remote sync event. -/
structure RemoteEvent where
  elementId : String
  changeType : RChangeType
  boxProperties : Box
  timestamp : Option Nat := none
deriving DecidableEq, Repr

/-- The switch body of `applyRemoteChanges` for one event: create/update
`Map.set` the full incoming snapshot (id forced to the event's elementId,
`isDeleted` cleared, `lastModified` defaulted to the arrival time); delete
marks the existing entry `isDeleted := true` when present and is a no-op
otherwise. -/
def applyRemoteEvent (now : Nat) (m : List (String × Box)) (ev : RemoteEvent) :
    List (String × Box) :=
  match ev.changeType with
  | RChangeType.create =>
    jsMapSet m ev.elementId
      { ev.boxProperties with
          id := ev.elementId
          isDeleted := false
          lastModified := some (ev.boxProperties.lastModified.getD now) }
  | RChangeType.update =>
    jsMapSet m ev.elementId
      { ev.boxProperties with
          id := ev.elementId
          isDeleted := false
          lastModified := some (ev.boxProperties.lastModified.getD now) }
  | RChangeType.delete =>
    match jsMapGet m ev.elementId with
    | some existing => jsMapSet m ev.elementId { existing with isDeleted := true }
    | none => m

/-- `applyRemoteChanges`: build a map of the current elements, apply every
event in order, then return the values with every `isDeleted` element
filtered out. -/
def applyRemoteChanges (now : Nat) (currentElements : List Box)
    (remoteEvents : List RemoteEvent) : List Box :=
  let m := currentElements.foldl
    (fun m el => jsMapSet m el.id el) ([] : List (String × Box))
  let m2 := remoteEvents.foldl (applyRemoteEvent now) m
  (jsMapValues m2).filter (fun el => !el.isDeleted)

/-- `resolveConflicts` (part_017): last-modified-wins on timestamps; the
remote event survives iff its timestamp is strictly greater than the local
element's `lastModified` (both defaulted to 0), or conflict resolution is
disabled. -/
def resolveConflicts (enableConflictResolution : Bool) (localElement : Box)
    (remoteEvent : RemoteEvent) : Option RemoteEvent :=
  if !enableConflictResolution then some remoteEvent
  else
    if remoteEvent.timestamp.getD 0 > localElement.lastModified.getD 0 then
      some remoteEvent
    else
      none

/-- The `resolvedEvents` filter of `handleRemoteUpdate` (part_017):
delete events always pass; events whose element is unknown locally pass;
otherwise the event passes iff `resolveConflicts` keeps it. -/
def resolvedEvents (enableConflictResolution : Bool) (canvasElements : List Box)
    (events : List RemoteEvent) : List RemoteEvent :=
  events.filter (fun ev =>
    if ev.changeType == RChangeType.delete then true
    else
      match canvasElements.find? (fun el => el.id == ev.elementId) with
      | none => true
      | some localElement =>
        (resolveConflicts enableConflictResolution localElement ev).isSome)

def tombBoxC8 : Box := { id := "a", version := some 4 }

def delEventC8 : RemoteEvent :=
  { elementId := "a", changeType := RChangeType.delete, boxProperties := { id := "a" } }

/-- C8 counterexample: applying a single delete event for an existing
element returns an element list in which the element is ABSENT altogether
(`filter(el => !el.isDeleted)` strips the tombstone), so the tombstone is
not retained in the authoritative element set handed back to the caller,
and a later stale update cannot be resolved against it. -/
theorem tombstone_physically_removed :
    applyRemoteChanges 0 [tombBoxC8] [delEventC8] = [] := by decide

/-- C8 amended: a delete event marks the element `isDeleted` inside the
per-call map (so later events of the same batch see the tombstone), but
the element list returned by `applyRemoteChanges` — which becomes the new
authoritative element set via `onElementsChange` — excludes every
tombstoned element: all returned elements have `isDeleted = false`, and
deleted elements are physically gone rather than retained. -/
theorem applyRemoteChanges_excludes_tombstones (now : Nat) (currentElements : List Box)
    (remoteEvents : List RemoteEvent) :
    ∀ e ∈ applyRemoteChanges now currentElements remoteEvents, e.isDeleted = false := by
  intro e he
  have hf := List.of_mem_filter he
  simpa using hf

def updEventC8 : RemoteEvent :=
  { elementId := "b", changeType := RChangeType.update,
    boxProperties := { id := "b", version := some 2, lastModified := some 3 } }

def resBoxC8 : Box := { id := "b", version := some 2, lastModified := some 3 }

/-- C8 amended witness: the element produced by a concrete update event is
in the result and carries `isDeleted = false`. -/
theorem applyRemoteChanges_excludes_tombstones_witness :
    resBoxC8 ∈ applyRemoteChanges 5 [] [updEventC8] ∧ resBoxC8.isDeleted = false :=
  ⟨by decide, applyRemoteChanges_excludes_tombstones 5 [] [updEventC8] resBoxC8 (by decide)⟩

theorem jsMapGet_isSome_eq_has (m : List (String × α)) (k : String) :
    (jsMapGet m k).isSome = jsMapHas m k := by
  unfold jsMapGet jsMapHas
  cases hf : m.find? (fun p => p.1 == k) with
  | none =>
    have hall := List.find?_eq_none.mp hf
    have hany : m.any (fun p => p.1 == k) = false := by
      rw [Bool.eq_false_iff]
      intro hh
      rcases List.any_eq_true.mp hh with ⟨x, hx, hpx⟩
      exact hall x hx hpx
    rw [hany]
    rfl
  | some p =>
    have hpm := List.mem_of_find?_eq_some hf
    have hpk := List.find?_some hf
    have hany : m.any (fun q => q.1 == k) = true := List.any_eq_true.mpr ⟨p, hpm, hpk⟩
    rw [hany]
    rfl

theorem jsMapGet_some_id (m : List (String × Box)) (k : String) (v : Box)
    (h : jsMapGet m k = some v) (hwk : WellKeyedBox m) : v.id = k := by
  unfold jsMapGet at h
  cases hf : m.find? (fun p => p.1 == k) with
  | none => rw [hf] at h; simp at h
  | some p =>
    rw [hf] at h
    have hp2 : p.2 = v := by simpa using h
    have hpm := List.mem_of_find?_eq_some hf
    have hpk := List.find?_some hf
    rw [← hp2, hwk p hpm]
    simpa using hpk

theorem jsMapSet_entries_with_key (m : List (String × α)) (k : String) (v : α) :
    ∀ p ∈ jsMapSet m k v, p.1 = k → p.2 = v := by
  intro p hp hpk
  unfold jsMapSet at hp
  by_cases hm : (m.any (fun q => q.1 == k)) = true
  · rw [if_pos hm] at hp
    rcases List.mem_map.mp hp with ⟨q, hq, rfl⟩
    by_cases hqk : (q.1 == k) = true
    · simp [hqk]
    · rw [if_neg hqk] at hpk ⊢
      exact absurd (beq_iff_eq.mpr hpk) hqk
  · rw [if_neg hm] at hp
    rcases List.mem_append.mp hp with h2 | h2
    · exact absurd (List.any_eq_true.mpr ⟨p, h2, by simp [hpk]⟩) hm
    · rw [List.mem_singleton] at h2
      rw [h2]

/-- C10: remote delete events bypass conflict resolution entirely: a
delete event is always kept by the `resolvedEvents` filter of
`handleRemoteUpdate` — no version or timestamp of any local element is
consulted — and applying it through `applyRemoteChanges` to any state
containing the element removes the element from the returned authoritative
set (tombstoned, then filtered out), whatever its local version or
lastModified; hence a stale delete overrides any newer local edit. -/
theorem delete_events_bypass_conflict_resolution (enableCR : Bool)
    (canvasElements : List Box) (events : List RemoteEvent) (ev : RemoteEvent)
    (hmem : ev ∈ events) (hdel : ev.changeType = RChangeType.delete)
    (now : Nat) (cur : List Box) (e0 : Box) (he0 : e0 ∈ cur)
    (hid : e0.id = ev.elementId) :
    ev ∈ resolvedEvents enableCR canvasElements events ∧
    ∀ e ∈ applyRemoteChanges now cur [ev], e.id ≠ ev.elementId := by
  constructor
  · refine List.mem_filter.mpr ⟨hmem, ?_⟩
    simp [hdel]
  · have hwk : WellKeyedBox (cur.foldl (fun m el => jsMapSet m el.id el) []) :=
      wellKeyedBox_foldSet _ _ (fun p hp => absurd hp (List.not_mem_nil p))
    have hhas : jsMapHas (cur.foldl (fun m el => jsMapSet m el.id el) [])
        ev.elementId = true := by
      rw [jsMapHas_foldSetBox]
      rw [show cur.any (fun el => el.id == ev.elementId) = true from
        List.any_eq_true.mpr ⟨e0, he0, by simp [hid]⟩]
      rfl
    obtain ⟨ex, hex⟩ : ∃ ex, jsMapGet (cur.foldl (fun m el => jsMapSet m el.id el) [])
        ev.elementId = some ex := by
      have h2 := jsMapGet_isSome_eq_has (cur.foldl (fun m el => jsMapSet m el.id el) [])
        ev.elementId
      rw [hhas] at h2
      exact Option.isSome_iff_exists.mp h2
    have hexid : ex.id = ev.elementId := jsMapGet_some_id _ _ ex hex hwk
    intro e he hide
    unfold applyRemoteChanges at he
    simp only [List.foldl_cons, List.foldl_nil] at he
    rw [show applyRemoteEvent now (cur.foldl (fun m el => jsMapSet m el.id el) []) ev =
        jsMapSet (cur.foldl (fun m el => jsMapSet m el.id el) []) ev.elementId
          { ex with isDeleted := true } from by
      unfold applyRemoteEvent
      rw [hdel, hex]] at he
    have hfilter := List.of_mem_filter he
    have hev := List.mem_of_mem_filter he
    rcases List.mem_map.mp hev with ⟨p, hp, rfl⟩
    have hwk2 : WellKeyedBox (jsMapSet (cur.foldl (fun m el => jsMapSet m el.id el) [])
        ev.elementId { ex with isDeleted := true }) := by
      have hvid : ({ ex with isDeleted := true } : Box).id = ev.elementId := hexid
      rw [← hvid]
      exact wellKeyedBox_jsMapSet _ _ hwk
    have hp1 : p.1 = ev.elementId := by
      rw [← hwk2 p hp]
      exact hide
    have hp2 := jsMapSet_entries_with_key _ ev.elementId { ex with isDeleted := true } p hp hp1
    rw [hp2] at hfilter
    simp at hfilter

def delBoxC10 : Box := { id := "z", version := some 9, lastModified := some 100 }

def staleDelC10 : RemoteEvent :=
  { elementId := "z", changeType := RChangeType.delete,
    boxProperties := { id := "z" }, timestamp := some 1 }

/-- C10 witness: a delete event with timestamp 1 against a local element
last modified at 100 still passes the filter and removes the element. -/
theorem delete_events_bypass_conflict_resolution_witness :
    (staleDelC10 ∈ [staleDelC10] ∧ staleDelC10.changeType = RChangeType.delete ∧
      delBoxC10 ∈ [delBoxC10] ∧ delBoxC10.id = staleDelC10.elementId) ∧
    (staleDelC10 ∈ resolvedEvents true [delBoxC10] [staleDelC10] ∧
      ∀ e ∈ applyRemoteChanges 0 [delBoxC10] [staleDelC10],
        e.id ≠ staleDelC10.elementId) :=
  ⟨⟨by decide, by decide, by decide, by decide⟩,
    delete_events_bypass_conflict_resolution true [delBoxC10] [staleDelC10] staleDelC10
      (by decide) (by decide) 0 [delBoxC10] delBoxC10 (by decide) (by decide)⟩

/-! ## Change Detector (C9): detectChanges in src/unnamed/part_017,
lines 752-782, over the elementMapRef built by initializeElementMap -/

/-- The ChangeSet produced by `detectChanges`; `removed` entries are the
`{ id }` objects the code pushes, i.e. bare ids. -/
structure ChangesRecord where
  updated : List Box
  removed : List String
  added : List Box
deriving DecidableEq, Repr

/-- `detectChanges`: an element of `newElements` is added iff its id is
absent from the element map, updated iff present and the stored `_version`
differs from `element.version || 0`; ids in the map absent from
`newElements` are removed (id only). -/
def detectChanges (elementMap : List (String × StoredBox)) (newElements : List Box) :
    ChangesRecord :=
  { updated := newElements.filter (fun el =>
      match jsMapGet elementMap el.id with
      | some existing => decide (existing.storedVersion ≠ el.version.getD 0)
      | none => false)
    removed := (elementMap.filter
      (fun p => !(newElements.any (fun el => el.id == p.1)))).map (fun p => p.1)
    added := newElements.filter (fun el => !(jsMapHas elementMap el.id)) }

def hashPrevC9 : List (String × StoredBox) :=
  [("a", ⟨{ id := "a", payload := 5 }, 0⟩)]

def hashNextC9 : Box := { id := "a", payload := 7 }

/-- C9 counterexample: previous and next snapshots of element "a" both
lack a `version` and differ structurally (payload 5 vs 7).  The claimed
structural-hash fallback would classify it as updated; the code compares
`_version` (0) with `version || 0` (0) and reports NO update. -/
theorem detectChanges_no_structural_hash :
    (detectChanges hashPrevC9 [hashNextC9]).updated = [] ∧
    hashNextC9.payload ≠ ({ id := "a", payload := 5 } : Box).payload := by
  refine ⟨by decide, by decide⟩

/-- C9 amended: `detect` classifies an element of `next` as added iff its
id is absent from `previous`, and as updated iff its id is present and the
stored `_version` differs from `version || 0` — there is no
structural-hash fallback: a versionless element is compared as version 0,
so content changes without a version bump are never classified as
updated.  The removed set is exactly the ids of `previous` absent from
`next`, as bare ids; the function is pure. -/
theorem detectChanges_classification (elementMap : List (String × StoredBox))
    (newElements : List Box) :
    (∀ el ∈ newElements,
      (el ∈ (detectChanges elementMap newElements).added ↔
        jsMapHas elementMap el.id = false) ∧
      (el ∈ (detectChanges elementMap newElements).updated ↔
        ∃ st, jsMapGet elementMap el.id = some st ∧
          st.storedVersion ≠ el.version.getD 0)) ∧
    (∀ i : String, i ∈ (detectChanges elementMap newElements).removed ↔
      (∃ p ∈ elementMap, p.1 = i) ∧ ∀ el ∈ newElements, el.id ≠ i) := by
  constructor
  · intro el hel
    constructor
    · rw [detectChanges]
      rw [List.mem_filter]
      constructor
      · rintro ⟨_, h2⟩
        simpa using h2
      · intro h2
        exact ⟨hel, by simp [h2]⟩
    · rw [detectChanges]
      rw [List.mem_filter]
      constructor
      · rintro ⟨_, h2⟩
        cases hg : jsMapGet elementMap el.id with
        | none => rw [hg] at h2; simp at h2
        | some st =>
          rw [hg] at h2
          exact ⟨st, rfl, by simpa using h2⟩
      · rintro ⟨st, hst, hne⟩
        refine ⟨hel, ?_⟩
        rw [hst]
        simpa using hne
  · intro i
    rw [detectChanges]
    simp only [List.mem_map, List.mem_filter]
    constructor
    · rintro ⟨p, ⟨hp, hnp⟩, rfl⟩
      refine ⟨⟨p, hp, rfl⟩, ?_⟩
      intro el helm he
      rw [Bool.not_eq_true'] at hnp
      have hany : newElements.any (fun e2 => e2.id == p.1) = true :=
        List.any_eq_true.mpr ⟨el, helm, by simp [he]⟩
      rw [hnp] at hany
      exact Bool.false_ne_true hany
    · rintro ⟨⟨p, hp, rfl⟩, hall⟩
      refine ⟨p, ⟨hp, ?_⟩, rfl⟩
      rw [Bool.not_eq_true']
      rw [Bool.eq_false_iff]
      intro hh
      rcases List.any_eq_true.mp hh with ⟨el, helm, hpe⟩
      exact hall el helm (by simpa using hpe)

def prevMapC9 : List (String × StoredBox) :=
  [("a", ⟨{ id := "a", version := some 1 }, 1⟩), ("gone", ⟨{ id := "gone" }, 0⟩)]

def updElC9 : Box := { id := "a", version := some 2 }

/-- C9 amended witness: the classification instantiated on a concrete map
and element (id present, stored version 1, incoming version 2). -/
theorem detectChanges_classification_witness :
    updElC9 ∈ [updElC9] ∧
    ((updElC9 ∈ (detectChanges prevMapC9 [updElC9]).added ↔
        jsMapHas prevMapC9 updElC9.id = false) ∧
      (updElC9 ∈ (detectChanges prevMapC9 [updElC9]).updated ↔
        ∃ st, jsMapGet prevMapC9 updElC9.id = some st ∧
          st.storedVersion ≠ updElC9.version.getD 0)) :=
  ⟨by decide, (detectChanges_classification prevMapC9 [updElC9]).1 updElC9 (by decide)⟩

/-! ## Convergence on the live apply path (C2)

The version-based `resolveBoxConflicts` is dead code: it is never invoked
anywhere (not even returned by its hook) and the `boxVersions` map it
reads is never written after its empty initialization.  The path a remote
update actually takes is the `resolvedEvents` filter of
`handleRemoteUpdate` (part_017, gate: `resolveConflicts`, a strict
timestamp comparison) followed by `applyRemoteChanges` (part_019,
full-snapshot `Map.set`).  The model below iterates exactly those two
embedded functions, delivering each event as its own batch. -/

/-- The snapshot `applyRemoteChanges` stores for a create/update event. -/
def appliedBox (now : Nat) (ev : RemoteEvent) : Box :=
  { ev.boxProperties with
      id := ev.elementId
      isDeleted := false
      lastModified := some (ev.boxProperties.lastModified.getD now) }

theorem applyRemoteEvent_update_eq (now : Nat) (m : List (String × Box))
    (ev : RemoteEvent) (h : ev.changeType = RChangeType.update) :
    applyRemoteEvent now m ev = jsMapSet m ev.elementId (appliedBox now ev) := by
  unfold applyRemoteEvent appliedBox
  rw [h]

/-- Delivery of one remote event: filter it through the
`handleRemoteUpdate` gate against the current elements, then apply the
survivors with `applyRemoteChanges`. -/
def deliverEvent (enableConflictResolution : Bool) (now : Nat) (state : List Box)
    (ev : RemoteEvent) : List Box :=
  applyRemoteChanges now state (resolvedEvents enableConflictResolution state [ev])

/-- A finite arrival sequence of remote events, delivered one by one. -/
def deliverAll (enableConflictResolution : Bool) (now : Nat) (state : List Box)
    (events : List RemoteEvent) : List Box :=
  events.foldl (deliverEvent enableConflictResolution now) state

/-- A well-stamped update event for element `i`: an update whose snapshot
carries the event's own timestamp as its `lastModified`. -/
def updateEventFor (i : String) (ev : RemoteEvent) : Prop :=
  ev.elementId = i ∧ ev.changeType = RChangeType.update ∧
  ev.boxProperties.lastModified = ev.timestamp ∧ ev.timestamp.isSome = true

instance (i : String) (ev : RemoteEvent) : Decidable (updateEventFor i ev) := by
  unfold updateEventFor
  infer_instance

theorem deliverEvent_absent (enableCR : Bool) (now : Nat) (ev : RemoteEvent)
    (hup : ev.changeType = RChangeType.update) :
    deliverEvent enableCR now [] ev = [appliedBox now ev] := by
  have hres : resolvedEvents enableCR [] [ev] = [ev] := by
    unfold resolvedEvents
    rw [List.filter_cons, hup]
    simp
  unfold deliverEvent
  rw [hres]
  unfold applyRemoteChanges
  simp only [List.foldl_cons, List.foldl_nil]
  rw [applyRemoteEvent_update_eq now _ ev hup]
  simp [jsMapSet, jsMapValues, appliedBox]

theorem deliverEvent_present (now : Nat) (el : Box) (ev : RemoteEvent)
    (hid : el.id = ev.elementId) (hnd : el.isDeleted = false)
    (hup : ev.changeType = RChangeType.update) :
    deliverEvent true now [el] ev =
      if el.lastModified.getD 0 < ev.timestamp.getD 0 then [appliedBox now ev]
      else [el] := by
  have hres : resolvedEvents true [el] [ev] =
      if el.lastModified.getD 0 < ev.timestamp.getD 0 then [ev] else [] := by
    unfold resolvedEvents resolveConflicts
    rw [List.filter_cons, hup]
    rw [List.find?_cons_of_pos _ (by simp [hid])]
    by_cases hcmp : el.lastModified.getD 0 < ev.timestamp.getD 0
    · rw [if_pos hcmp]
      simp [hcmp]
    · rw [if_neg hcmp]
      simp [hcmp]
  by_cases hcmp : el.lastModified.getD 0 < ev.timestamp.getD 0
  · rw [if_pos hcmp]
    unfold deliverEvent
    rw [hres, if_pos hcmp]
    unfold applyRemoteChanges
    simp only [List.foldl_cons, List.foldl_nil]
    rw [applyRemoteEvent_update_eq now _ ev hup]
    simp [jsMapSet, jsMapHas, jsMapValues, appliedBox, hid]
  · rw [if_neg hcmp]
    unfold deliverEvent
    rw [hres, if_neg hcmp]
    unfold applyRemoteChanges
    simp [jsMapSet, jsMapValues, hnd]

def evHighVC2 : RemoteEvent :=
  { elementId := "e", changeType := RChangeType.update,
    boxProperties :=
      { id := "e", version := some 5, lastModified := some 10, payload := 50 },
    timestamp := some 10 }

def evLowVC2 : RemoteEvent :=
  { elementId := "e", changeType := RChangeType.update,
    boxProperties :=
      { id := "e", version := some 1, lastModified := some 20, payload := 10 },
    timestamp := some 20 }

def tieTsAC2 : RemoteEvent :=
  { elementId := "e", changeType := RChangeType.update,
    boxProperties :=
      { id := "e", version := some 1, modifiedBy := "A", lastModified := some 30,
        payload := 1 },
    timestamp := some 30 }

def tieTsBC2 : RemoteEvent :=
  { elementId := "e", changeType := RChangeType.update,
    boxProperties :=
      { id := "e", version := some 1, modifiedBy := "B", lastModified := some 30,
        payload := 2 },
    timestamp := some 30 }

/-- C2 counterexample: on the live apply path versions are never
consulted.  Both arrival orders of a version-5/timestamp-10 event and a
version-1/timestamp-20 event for the same element end with the
version-1 event applied — not the event with the highest
(version, timestamp) tuple — and for two events with equal timestamps the
two arrival orders end in different states (the first applied wins, since
`resolveConflicts` rejects non-strictly-greater timestamps), so
arrival-order independence fails as well. -/
theorem remote_apply_ignores_versions :
    deliverAll true 0 [] [evHighVC2, evLowVC2] = [appliedBox 0 evLowVC2] ∧
    deliverAll true 0 [] [evLowVC2, evHighVC2] = [appliedBox 0 evLowVC2] ∧
    (appliedBox 0 evLowVC2).version = some 1 ∧
    evHighVC2.boxProperties.version = some 5 ∧
    deliverAll true 0 [] [tieTsAC2, tieTsBC2] ≠ deliverAll true 0 [] [tieTsBC2, tieTsAC2] := by
  refine ⟨by decide, by decide, by decide, by decide, by decide⟩

theorem appliedBox_lastModified (now : Nat) (i : String) (ev : RemoteEvent)
    (h : updateEventFor i ev) :
    (appliedBox now ev).lastModified.getD 0 = ev.timestamp.getD 0 := by
  obtain ⟨-, -, hlm, hts⟩ := h
  obtain ⟨t, ht⟩ := Option.isSome_iff_exists.mp hts
  simp [appliedBox, hlm, ht]

theorem deliverAll_stay (now : Nat) (i : String) (e : RemoteEvent) (l : List RemoteEvent)
    (he : updateEventFor i e)
    (hl : ∀ f ∈ l, updateEventFor i f ∧
      (f = e ∨ f.timestamp.getD 0 < e.timestamp.getD 0)) :
    deliverAll true now [appliedBox now e] l = [appliedBox now e] := by
  induction l with
  | nil => rfl
  | cons f rest ih =>
    obtain ⟨hf, hfe⟩ := hl f (List.mem_cons_self f rest)
    have hstep : deliverEvent true now [appliedBox now e] f = [appliedBox now e] := by
      rw [deliverEvent_present now (appliedBox now e) f
        (by rw [show (appliedBox now e).id = e.elementId from rfl, he.1, hf.1])
        rfl hf.2.1]
      rw [appliedBox_lastModified now i e he]
      rcases hfe with rfl | hlt
      · rw [if_neg (lt_irrefl _)]
      · rw [if_neg (by omega)]
    show deliverAll true now (deliverEvent true now [appliedBox now e] f) rest = _
    rw [hstep]
    exact ih (fun g hg => hl g (List.mem_cons_of_mem f hg))

theorem deliverAll_core (now : Nat) (i : String) (e : RemoteEvent) (l : List RemoteEvent) :
    ∀ state : List Box,
    (state = [] ∨ ∃ g : RemoteEvent, updateEventFor i g ∧
      g.timestamp.getD 0 < e.timestamp.getD 0 ∧ state = [appliedBox now g]) →
    e ∈ l →
    (∀ f ∈ l, updateEventFor i f) →
    (∀ f ∈ l, f ≠ e → f.timestamp.getD 0 < e.timestamp.getD 0) →
    deliverAll true now state l = [appliedBox now e] := by
  induction l with
  | nil =>
    intro state _ he _ _
    exact absurd he (List.not_mem_nil e)
  | cons a rest ih =>
    intro state hinv he hall hmax
    have ha := hall a (List.mem_cons_self a rest)
    by_cases hae : a = e
    · subst hae
      have hstep : deliverEvent true now state a = [appliedBox now a] := by
        rcases hinv with rfl | ⟨g, hg, hglt, rfl⟩
        · exact deliverEvent_absent true now a ha.2.1
        · rw [deliverEvent_present now (appliedBox now g) a
            (by rw [show (appliedBox now g).id = g.elementId from rfl, hg.1, ha.1])
            rfl ha.2.1]
          rw [appliedBox_lastModified now i g hg]
          rw [if_pos hglt]
      show deliverAll true now (deliverEvent true now state a) rest = _
      rw [hstep]
      refine deliverAll_stay now i a rest ha (fun f hf => ⟨hall f (List.mem_cons_of_mem a hf), ?_⟩)
      by_cases hfa : f = a
      · exact Or.inl hfa
      · exact Or.inr (hmax f (List.mem_cons_of_mem a hf) hfa)
    · have halt : a.timestamp.getD 0 < e.timestamp.getD 0 :=
        hmax a (List.mem_cons_self a rest) hae
      have he3 : e ∈ rest := by
        rcases List.mem_cons.mp he with h | h
        · exact absurd h.symm hae
        · exact h
      have hinv2 : deliverEvent true now state a = [] ∨ ∃ g, updateEventFor i g ∧
          g.timestamp.getD 0 < e.timestamp.getD 0 ∧
          deliverEvent true now state a = [appliedBox now g] := by
        rcases hinv with rfl | ⟨g, hg, hglt, rfl⟩
        · exact Or.inr ⟨a, ha, halt, deliverEvent_absent true now a ha.2.1⟩
        · rw [deliverEvent_present now (appliedBox now g) a
            (by rw [show (appliedBox now g).id = g.elementId from rfl, hg.1, ha.1])
            rfl ha.2.1]
          by_cases hcmp : (appliedBox now g).lastModified.getD 0 < a.timestamp.getD 0
          · rw [if_pos hcmp]
            exact Or.inr ⟨a, ha, halt, rfl⟩
          · rw [if_neg hcmp]
            exact Or.inr ⟨g, hg, hglt, rfl⟩
      show deliverAll true now (deliverEvent true now state a) rest = _
      exact ih (deliverEvent true now state a) hinv2 he3
        (fun f hf => hall f (List.mem_cons_of_mem a hf))
        (fun f hf => hmax f (List.mem_cons_of_mem a hf))

/-- C2 amended: the program's conflict gate never consults versions
(`resolveBoxConflicts` is dead code and its `boxVersions` map is never
written); a remote update is accepted iff its timestamp is strictly
greater than the local element's lastModified, and acceptance applies the
full snapshot.  Arrival-order independence therefore holds only when the
event timestamps are pairwise distinct: if `e` is the unique
highest-timestamp well-stamped update event of the batch, every arrival
order of per-event deliveries starting from an element-absent state ends
with `e`'s snapshot — so two clients applying the same events in any
orders converge to the highest-TIMESTAMP event, regardless of versions;
on timestamp ties the first-applied event wins and order independence
fails (see the counterexample). -/
theorem remote_apply_converges_distinct_timestamps (now : Nat) (i : String)
    (l : List RemoteEvent) (e : RemoteEvent)
    (hall : ∀ f ∈ l, updateEventFor i f) (he : e ∈ l)
    (hmax : ∀ f ∈ l, f ≠ e → f.timestamp.getD 0 < e.timestamp.getD 0) :
    deliverAll true now [] l = [appliedBox now e] :=
  deliverAll_core now i e l [] (Or.inl rfl) he hall hmax

/-- C2 amended witness: three well-stamped update events with distinct
timestamps 10, 30, 20 converge to the timestamp-30 event. -/
theorem remote_apply_converges_distinct_timestamps_witness :
    (∀ f ∈ [evHighVC2, tieTsAC2, evLowVC2], updateEventFor "e" f) ∧
    tieTsAC2 ∈ [evHighVC2, tieTsAC2, evLowVC2] ∧
    (∀ f ∈ [evHighVC2, tieTsAC2, evLowVC2], f ≠ tieTsAC2 →
      f.timestamp.getD 0 < tieTsAC2.timestamp.getD 0) ∧
    deliverAll true 0 [] [evHighVC2, tieTsAC2, evLowVC2] = [appliedBox 0 tieTsAC2] :=
  ⟨by decide, by decide, by decide,
    remote_apply_converges_distinct_timestamps 0 "e" _ tieTsAC2 (by decide) (by decide)
      (by decide)⟩
